import Mathlib

/-!
Shallow embedding of the fuzzy-diagnostics core of the happy_kids repository
(src/accounts/fuzzy_logic.py and src/accounts/diagnostic_panel.py).

Numbers are modelled exactly: Python floats become rationals (ℚ); the only
irrational quantity in the sources is `np.std` (a square root), modelled as
`Real.sqrt` of the rational variance.  Python dicts become association lists
(insertion order preserved, keys unique), JSON record fields become the
corresponding Lean types.  Counts stored in `performance_metrics`,
`mistake_types` and the emotion fields are non-negative integers in the data
produced by the games, hence modelled as ℕ.
-/

namespace HappyKids

/-- Python `dict.get(k, dflt)` on an association list. -/
def lookupD {α : Type} (l : List (String × α)) (k : String) (dflt : α) : α :=
  match l.find? (fun p => p.1 = k) with
  | some p => p.2
  | none => dflt

/-- Python `str.split(sep)` for a one-character separator, on the character
list of the string (empty pieces are kept, as in Python). -/
def splitOnChar (c : Char) : List Char → List (List Char)
  | [] => [[]]
  | x :: xs =>
    match splitOnChar c xs with
    | [] => [[x]]
    | h :: t => if x = c then [] :: h :: t else (x :: h) :: t

/-- `key.split('.')` from `_match_diagnoses`. -/
def parseKey (key : String) : List String :=
  (splitOnChar '.' key.toList).map (fun cs => String.mk cs)

/-- First-occurrence-ordered distinct elements of a list (the key order of a
Python `Counter` / `set` built by insertion). -/
def keysInOrder (l : List String) : List String :=
  l.foldl (fun acc v => if v ∈ acc then acc else acc ++ [v]) []

/-- Python `max(items, key=lambda t: t[1])`: the first pair with maximal
second component (later pairs replace the current one only when strictly
greater). -/
def pyMaxBySnd (l : List (String × ℚ)) : Option (String × ℚ) :=
  l.foldl (fun acc p =>
    match acc with
    | none => some p
    | some q => if p.2 > q.2 then some p else some q) none

/-- Python dict assignment `d[k] = v`: replace in place if the key exists,
append otherwise. -/
def setAssoc {α : Type} (l : List (String × α)) (k : String) (x : α) : List (String × α) :=
  match l with
  | [] => [(k, x)]
  | (k', v') :: rest => if k' = k then (k, x) :: rest else (k', v') :: setAssoc rest k x

/-! ### FuzzySet / FuzzyVariable (fuzzy_logic.py lines 19-92, diagnostic_panel.py compute_membership) -/

/-- The trapezoidal membership computation shared verbatim by
`FuzzySet.membership` (fuzzy_logic.py 44-65) and `compute_membership`
(diagnostic_panel.py 328-342):
0 at or beyond `a` and `d`; ramp on (a,b); 1 on [b,c]; ramp on (c,d);
the ramps guard `b = a` / `d = c` by returning 1. -/
def trapMembership (a b c d x : ℚ) : ℚ :=
  if x ≤ a ∨ x ≥ d then 0
  else if a < x ∧ x < b then (if b ≠ a then (x - a) / (b - a) else 1)
  else if b ≤ x ∧ x ≤ c then 1
  else if c < x ∧ x < d then (if d ≠ c then (d - x) / (d - c) else 1)
  else 0

/-- `FuzzySet`: four ordered breakpoints (a 3-parameter list is normalised to
`d = c` by `__init__`). -/
structure FuzzySet where
  a : ℚ
  b : ℚ
  c : ℚ
  d : ℚ
deriving DecidableEq

/-- `FuzzySet.membership`. -/
def FuzzySet.membership (s : FuzzySet) (x : ℚ) : ℚ :=
  trapMembership s.a s.b s.c s.d x

/-- `FuzzySet.__init__`: a 3- or 4-parameter membership-function list
(anything else raises `ValueError`, modelled as `none`). -/
def FuzzySet.ofParams (mf : List ℚ) : Option FuzzySet :=
  match mf with
  | [a, b, c] => some ⟨a, b, c, c⟩
  | [a, b, c, d] => some ⟨a, b, c, d⟩
  | _ => none

/-- `compute_membership(mf, x)` from diagnostic_panel.py (3-element list sets
`d = c`; a list of any other length than 3 or 4 raises on unpacking). -/
def computeMembership (mf : List ℚ) (x : ℚ) : Option ℚ :=
  match mf with
  | [a, b, c] => some (trapMembership a b c c x)
  | [a, b, c, d] => some (trapMembership a b c d x)
  | _ => none

/-- `FuzzyVariable.fuzzify`: membership of `x` in every term. -/
def fuzzify (terms : List (String × FuzzySet)) (x : ℚ) : List (String × ℚ) :=
  terms.map (fun p => (p.1, p.2.membership x))

/-! ### The static term tables (fuzzy_logic.py LINGUISTIC_VARIABLES 126-183,
diagnostic_panel.py DIAGNOSTIC_PARAMETERS 66-117) -/

def diagnostic_depth_terms : List (String × FuzzySet) :=
  [("низкая", ⟨0, 0, 0.3, 0.4⟩), ("средняя", ⟨0.3, 0.5, 0.7, 0.8⟩), ("высокая", ⟨0.7, 0.8, 1, 1⟩)]

def motivational_potential_terms : List (String × FuzzySet) :=
  [("низкий", ⟨0, 0, 0.2, 0.3⟩), ("умеренный", ⟨0.2, 0.4, 0.6, 0.7⟩), ("высокий", ⟨0.6, 0.8, 1, 1⟩)]

def objectivity_terms : List (String × FuzzySet) :=
  [("низкая", ⟨0, 0, 0.2, 0.3⟩), ("средняя", ⟨0.2, 0.4, 0.6, 0.7⟩), ("высокая", ⟨0.6, 0.8, 1, 1⟩)]

def ecological_validity_terms : List (String × FuzzySet) :=
  [("низкая", ⟨0, 0, 0.2, 0.3⟩), ("средняя", ⟨0.2, 0.4, 0.6, 0.7⟩), ("высокая", ⟨0.6, 0.8, 1, 1⟩)]

def dynamic_assessment_terms : List (String × FuzzySet) :=
  [("ограниченный", ⟨0, 0, 0.2, 0.3⟩), ("умеренный", ⟨0.2, 0.4, 0.6, 0.7⟩), ("широкий", ⟨0.6, 0.8, 1, 1⟩)]

/-- LINGUISTIC_VARIABLES['impulsivity'] (reaction-time scale, 0-2000 ms). -/
def impulsivity_rt_terms : List (String × FuzzySet) :=
  [("низкий", ⟨0, 0, 300, 400⟩), ("средний", ⟨300, 400, 600, 700⟩), ("высокий", ⟨600, 800, 2000, 2000⟩)]

/-- LINGUISTIC_VARIABLES['cognitive_activity'] (hint-frequency scale, 0-10). -/
def cognitive_activity_freq_terms : List (String × FuzzySet) :=
  [("исследующая", ⟨0, 0, 2, 3⟩), ("направленная", ⟨2, 3, 5, 6⟩), ("зависимая", ⟨5, 7, 10, 10⟩)]

def impulsivity_param_terms : List (String × FuzzySet) :=
  [("низкий", ⟨0, 0, 0.25, 0.4⟩), ("средний", ⟨0.25, 0.4, 0.6, 0.75⟩), ("высокий", ⟨0.6, 0.75, 1, 1⟩)]

def cognitive_activity_param_terms : List (String × FuzzySet) :=
  [("исследующая", ⟨0, 0, 0.3, 0.5⟩), ("направленная", ⟨0.3, 0.5, 0.7, 0.85⟩), ("зависимая", ⟨0.7, 0.85, 1, 1⟩)]

def strategy_param_terms : List (String × FuzzySet) :=
  [("систематическая", ⟨0, 0, 0.2, 0.35⟩), ("импульсивная", ⟨0.2, 0.35, 0.6, 0.8⟩), ("адаптивная", ⟨0.5, 0.7, 1, 1⟩)]

def cognitive_control_param_terms : List (String × FuzzySet) :=
  [("стабильный", ⟨0, 0, 0.3, 0.5⟩), ("вариабельный", ⟨0.3, 0.5, 0.7, 0.85⟩), ("истощаемый", ⟨0.7, 0.85, 1, 1⟩)]

def anxiety_param_terms : List (String × FuzzySet) :=
  [("низкая", ⟨0, 0, 0.25, 0.4⟩), ("умеренная", ⟨0.25, 0.4, 0.6, 0.75⟩), ("высокая", ⟨0.6, 0.75, 1, 1⟩)]

/-! ### GameResult records (accounts/models.py, fields used by the engine) -/

/-- One game-result record.  `reaction_times` holds the non-null samples (the
sources drop `None` entries on read); `session_completed` is the truthiness of
`r.session and r.session.completed`; the three free-form payloads are `None`
(absent) or a JSON object. -/
structure GameResult where
  game_type : String
  date : ℕ
  joy : ℕ
  sorrow : ℕ
  love : ℕ
  anger : ℕ
  boredom : ℕ
  happiness : ℕ
  reaction_times : List ℚ
  mistakes : ℕ
  mistake_types : List (String × ℕ)
  strategy_type : Option String
  performance_metrics : List (String × ℕ)
  drawing_data : Option (List (String × String))
  dialog_answers : Option (List (String × String))
  choices : Option (List (String × String))
  session_completed : Bool
deriving DecidableEq

/-- A record with every field empty/zero, used to build concrete inputs. -/
def emptyGameResult : GameResult :=
  { game_type := "", date := 0, joy := 0, sorrow := 0, love := 0, anger := 0,
    boredom := 0, happiness := 0, reaction_times := [], mistakes := 0,
    mistake_types := [], strategy_type := none, performance_metrics := [],
    drawing_data := none, dialog_answers := none, choices := none,
    session_completed := false }

/-- `r.performance_metrics.get(k, dflt)`. -/
def pmGet (r : GameResult) (k : String) (dflt : ℕ) : ℕ :=
  lookupD r.performance_metrics k dflt

/-- `r.mistake_types.get(k, 0)`. -/
def mtGet (r : GameResult) (k : String) : ℕ :=
  lookupD r.mistake_types k 0

/-- Truthiness of an optional JSON-object field (`None` and `{}` are falsy). -/
def optTruthy (o : Option (List (String × String))) : Bool :=
  match o with
  | some l => l ≠ []
  | none => false

/-! ### Numeric helpers (np.mean / np.std on floats, modelled exactly) -/

/-- `np.mean` (the sources only apply it to non-empty lists; on `[]` this is
`0/0 = 0` in ℚ). -/
def meanQ (l : List ℚ) : ℚ := l.sum / l.length

/-- Population variance (the square of `np.std`, which uses `ddof=0`). -/
def varQ (l : List ℚ) : ℚ := meanQ (l.map (fun x => (x - meanQ l) ^ 2))

/-- `np.std`, the square root of the population variance. -/
noncomputable def stdR (l : List ℚ) : ℝ := Real.sqrt ((varQ l : ℝ))

/-- `cv = std / avg if avg > 0 else 0`, the coefficient of variation as
computed in both `extract_game_metrics` and `analyze_reaction_times`. -/
noncomputable def cvOfR (rts : List ℚ) : ℝ :=
  if meanQ rts > 0 then stdR rts / ((meanQ rts : ℚ) : ℝ) else 0

/-! ### extract_game_metrics (diagnostic_panel.py 283-325) -/

/-- The pooled reaction-time list `all_rt`. -/
def allRT (rs : List GameResult) : List ℚ :=
  rs.flatMap (fun r => r.reaction_times)

/-- The per-record contribution to `total_actions` (`x or 1` / `x or 8` is
Python truthiness: a zero value falls back to the constant). -/
def recordActions (r : GameResult) : ℕ :=
  if r.game_type = "Memory" then
    (let x := pmGet r "attempts" 0 * 2; if x = 0 then 1 else x)
  else if r.game_type = "EmotionFace" ∨ r.game_type = "Sort" ∨
      r.game_type = "Pattern" ∨ r.game_type = "EmotionMatch" then
    (let x := pmGet r "total" 8; if x = 0 then 8 else x)
  else
    max (max r.reaction_times.length (pmGet r "total" 1)) 1

def totalActions (rs : List GameResult) : ℕ := (rs.map recordActions).sum

def totalMistakes (rs : List GameResult) : ℕ := (rs.map (fun r => r.mistakes)).sum

def hintCount (rs : List GameResult) : ℕ := (rs.map (fun r => pmGet r "hints_used" 0)).sum

def sessionCount (rs : List GameResult) : ℕ := rs.length

/-- `metrics['impulsivity']`. -/
def extractImpulsivity (rs : List GameResult) : ℚ :=
  let rts := allRT rs
  if rts = [] then 0.5
  else if meanQ rts > 0 then max 0 (min 1 (1 - (meanQ rts - 200) / 1500)) else 0.5

/-- `metrics['cognitive_control'] = min(1, cv * 2)` (0.5 with no samples). -/
noncomputable def extractCognitiveControl (rs : List GameResult) : ℝ :=
  if allRT rs = [] then 0.5 else min 1 (cvOfR (allRT rs) * 2)

/-- `metrics['cognitive_activity'] = min(1, hint_count / max(session_count * 3, 1))`. -/
def extractCognitiveActivity (rs : List GameResult) : ℚ :=
  min 1 ((hintCount rs : ℚ) / ((max (sessionCount rs * 3) 1 : ℕ) : ℚ))

/-- `error_rate = total_mistakes / total_actions if total_actions > 0 else 0.2`. -/
def errorRateOf (rs : List GameResult) : ℚ :=
  if totalActions rs > 0 then (totalMistakes rs : ℚ) / (totalActions rs : ℚ) else 0.2

/-- `metrics['strategy'] = min(1, error_rate * 2.5)`. -/
def extractStrategy (rs : List GameResult) : ℚ :=
  min 1 (errorRateOf rs * 2.5)

/-- `metrics['anxiety'] = 0.3 + 0.4 * (1 - error_rate) if total_actions > 0 else 0.4`. -/
def extractAnxiety (rs : List GameResult) : ℚ :=
  if totalActions rs > 0 then 0.3 + 0.4 * (1 - errorRateOf rs) else 0.4

/-! ### FuzzyAnalyzer.analyze_reaction_times (fuzzy_logic.py 196-222) -/

open Classical in
/-- `analyze_reaction_times`: fuzzify the average reaction time against the
0-2000 ms impulsivity terms, then, when the coefficient of variation exceeds
0.3, raise the 'высокий' membership by 0.2 (capped at 1). -/
noncomputable def analyzeReactionTimes (rts : List ℚ) : List (String × ℚ) :=
  if rts = [] then [("низкий", 0), ("средний", 0), ("высокий", 0)]
  else
    let imp := fuzzify impulsivity_rt_terms (meanQ rts)
    if cvOfR rts > 0.3 then
      imp.map (fun p => if p.1 = "высокий" then (p.1, min 1 (p.2 + 0.2)) else p)
    else imp

/-! ### FuzzyAnalyzer.analyze_strategy (fuzzy_logic.py 258-312) -/

/-- Vote from the explicit `strategy_type` field (`if result.strategy_type:`
is false for `None` and for the empty string). -/
def strategyTypeVotes (r : GameResult) : List String :=
  match r.strategy_type with
  | some s => if s ≠ "" then [s] else []
  | none => []

/-- Vote from `mistake_types` (only when the dict is non-empty; equal counts
append nothing). -/
def mistakeTypeVotes (r : GameResult) : List String :=
  if r.mistake_types ≠ [] then
    (if mtGet r "inhibition" > mtGet r "attention" then ["impulsive"]
     else if mtGet r "attention" > mtGet r "inhibition" then ["systematic"]
     else [])
  else []

def sequenceVotes (r : GameResult) : List String :=
  if r.game_type = "Sequence" ∧ r.mistakes > 3 then ["impulsive"]
  else if r.game_type = "Sequence" ∧ r.mistakes ≤ 1 then ["systematic"]
  else []

/-- Truthiness of `pm.get('completed')` (absent or zero is falsy). -/
def pmCompleted (r : GameResult) : Bool := pmGet r "completed" 0 ≠ 0

def puzzleVotes (r : GameResult) : List String :=
  if r.game_type = "Puzzle" then
    (let moves := pmGet r "moves" 0
     if moves > 50 ∧ pmCompleted r then ["systematic"]
     else if moves < 20 ∧ ¬ (pmCompleted r = true) then ["impulsive"]
     else [])
  else []

def memoryVotes (r : GameResult) : List String :=
  if r.game_type = "Memory" then
    (let attempts := pmGet r "attempts" 0
     let pairs := pmGet r "pairs_found" 0
     if attempts > 0 ∧ pairs > 0 ∧ (attempts : ℚ) / ((max pairs 1 : ℕ) : ℚ) > 2 then
       ["impulsive"]
     else [])
  else []

def gonogoVotes (r : GameResult) : List String :=
  if r.game_type = "GoNoGo" ∧ pmGet r "commission_errors" 0 > 2 then ["impulsive"] else []

/-- All votes a single record appends, in source order. -/
def recordVotes (r : GameResult) : List String :=
  strategyTypeVotes r ++ mistakeTypeVotes r ++ sequenceVotes r ++
    puzzleVotes r ++ memoryVotes r ++ gonogoVotes r

/-- `Counter(strategies).most_common(1)[0][0]`: the first-encountered vote
with maximal count (`sorted` is stable on the insertion-ordered counter). -/
def mostCommonVote (votes : List String) : Option String :=
  match keysInOrder votes with
  | [] => none
  | k :: ks => some (ks.foldl (fun best k2 => if votes.count k2 > votes.count best then k2 else best) k)

/-- `analyze_strategy`. -/
def analyzeStrategy (rs : List GameResult) : String :=
  if rs = [] then "unknown"
  else
    match mostCommonVote (rs.flatMap recordVotes) with
    | none => "unknown"
    | some s => s

/-! ### FuzzyAnalyzer.analyze_emotions (fuzzy_logic.py 579-601) -/

/-- `emotion_sums` in EMOTIONS order ['гнев', 'скука', 'радость', 'счастье',
'грусть', 'любовь']. -/
def emotionSums (rs : List GameResult) : List (String × ℕ) :=
  [("гнев", (rs.map (fun r => r.anger)).sum),
   ("скука", (rs.map (fun r => r.boredom)).sum),
   ("радость", (rs.map (fun r => r.joy)).sum),
   ("счастье", (rs.map (fun r => r.happiness)).sum),
   ("грусть", (rs.map (fun r => r.sorrow)).sum),
   ("любовь", (rs.map (fun r => r.love)).sum)]

def emotionTotal (rs : List GameResult) : ℕ :=
  ((emotionSums rs).map (fun p => p.2)).sum

/-- `analyze_emotions`: all-zero shares when the total is 0, otherwise each
sum divided by the total. -/
def analyzeEmotions (rs : List GameResult) : List (String × ℚ) :=
  if emotionTotal rs = 0 then (emotionSums rs).map (fun p => (p.1, 0))
  else (emotionSums rs).map (fun p => (p.1, (p.2 : ℚ) / (emotionTotal rs : ℚ)))

/-! ### The five assessment-quality scorers (fuzzy_logic.py 393-575) -/

/-- Truthiness of `r.drawing_data and r.drawing_data.get('image_base64')`
(absent dict, empty dict, missing key and empty string are all falsy). -/
def drawingHasImage (r : GameResult) : Bool :=
  match r.drawing_data with
  | some dd => dd ≠ [] && lookupD dd "image_base64" "" ≠ ""
  | none => false

/-- `len(o or {})` for an optional JSON-object field. -/
def optLen (o : Option (List (String × String))) : ℕ :=
  match o with
  | some l => l.length
  | none => 0

/-- `_game_data_score` (fuzzy_logic.py 393-413).  The Painting branch tests
`r.drawing_data and r.drawing_data.get('image_base64')`. -/
def gameDataScore (r : GameResult) : ℚ :=
  if r.game_type = "Painting" then
    (if drawingHasImage r then 1 else 0.3)
  else if r.game_type = "Dialog" then
    min ((optLen r.dialog_answers : ℚ) / 5) 1
  else if r.game_type = "Choice" then
    min ((optLen r.choices : ℚ) / 5) 1
  else if r.game_type = "Memory" then
    min (((pmGet r "pairs_found" 0 + pmGet r "levels_completed" 0 * 2 : ℕ) : ℚ) / 10) 1
  else if r.game_type = "Puzzle" then
    (if pmGet r "moves" 0 > 0 then 0.5 else 0.2)
  else if r.game_type = "Sequence" then
    (if pmGet r "level_reached" 0 > 0 then 0.5 else 0.2)
  else if r.game_type = "EmotionFace" ∨ r.game_type = "Attention" ∨ r.game_type = "GoNoGo" ∨
      r.game_type = "Sort" ∨ r.game_type = "Pattern" ∨ r.game_type = "EmotionMatch" then
    (if r.performance_metrics ≠ [] then 0.7 else 0.3)
  else 0.3

/-- `len(set(r.game_type for r in game_results))`. -/
def distinctGameTypes (rs : List GameResult) : ℕ :=
  (keysInOrder (rs.map (fun r => r.game_type))).length

/-- `calculate_diagnostic_depth` (fuzzy_logic.py 415-439). -/
def calculateDiagnosticDepth (rs : List GameResult) : List (String × ℚ) :=
  if rs = [] then [("низкая", 0.5), ("средняя", 0.5), ("высокая", 0)]
  else
    let diversity := min ((distinctGameTypes rs : ℚ) / 12) 1
    let dataScores := rs.map gameDataScore
    let hasDetailed := if dataScores ≠ [] then dataScores.sum / dataScores.length else 0
    let sessionsScore := min ((rs.length : ℚ) / 8) 1
    fuzzify diagnostic_depth_terms (diversity * 0.35 + hasDetailed * 0.4 + sessionsScore * 0.25)

/-- `calculate_motivation` (fuzzy_logic.py 441-487). -/
def calculateMotivation (rs : List GameResult) : List (String × ℚ) :=
  if rs = [] then [("низкий", 0.5), ("умеренный", 0.5), ("высокий", 0)]
  else
    let completionRate := ((rs.filter (fun r => r.session_completed)).length : ℚ) / rs.length
    let memoryResults := rs.filter (fun r => r.game_type = "Memory")
    let memorySum := (memoryResults.map (fun r =>
        (pmGet r "levels_completed" 0 : ℚ) / 4 * 0.6 +
          min ((pmGet r "pairs_found" 0 : ℚ) / 20) 1 * 0.4)).sum
    let memoryScore := min (memorySum / ((max memoryResults.length 1 : ℕ) : ℚ)) 1
    let puzzleResults := rs.filter (fun r => r.game_type = "Puzzle")
    let puzzleScore := ((puzzleResults.filter pmCompleted).length : ℚ) /
      ((max puzzleResults.length 1 : ℕ) : ℚ)
    let seqResults := rs.filter (fun r => r.game_type = "Sequence")
    let seqSum := (seqResults.map (fun r =>
        (pmGet r "level_reached" 1 : ℚ) / 5 * max 0 (1 - (r.mistakes : ℚ) * 0.1))).sum
    let seqScore := min (seqSum / ((max seqResults.length 1 : ℕ) : ℚ)) 1
    let emotionSum := (rs.map (fun r => (r.joy + r.happiness : ℕ))).sum
    let emotionScore := min ((emotionSum : ℚ) / ((rs.length * 10 : ℕ) : ℚ)) 1
    fuzzify motivational_potential_terms
      (completionRate * 0.2 + memoryScore * 0.25 + puzzleScore * 0.2 +
        seqScore * 0.2 + emotionScore * 0.15)

def objectiveTypes : List String :=
  ["Memory", "Puzzle", "Sequence", "EmotionFace", "Attention", "GoNoGo", "Sort", "Pattern", "EmotionMatch"]

/-- `calculate_objectivity` (fuzzy_logic.py 489-512). -/
def calculateObjectivity (rs : List GameResult) : List (String × ℚ) :=
  if rs = [] then [("низкая", 0.1), ("средняя", 0.3), ("высокая", 0.6)]
  else
    let objFrac := ((rs.filter (fun r => r.game_type ∈ objectiveTypes)).length : ℚ) / rs.length
    let subjCount := (rs.filter (fun r =>
      r.game_type = "Painting" ∨ r.game_type = "Dialog" ∨ r.game_type = "Choice")).length
    let base := 0.6 + objFrac * 0.3
    let base := if subjCount > 0 then base + 0.1 else base
    fuzzify objectivity_terms (min base 1)

/-- `calculate_ecological_validity` (fuzzy_logic.py 514-537). -/
def calculateEcologicalValidity (rs : List GameResult) : List (String × ℚ) :=
  if rs = [] then [("низкая", 0.2), ("средняя", 0.5), ("высокая", 0.3)]
  else
    let choiceCount := (rs.filter (fun r => r.game_type = "Choice" ∧ optTruthy r.choices)).length
    let paintCount := (rs.filter (fun r => r.game_type = "Painting" ∧ optTruthy r.drawing_data)).length
    let dialogCount := (rs.filter (fun r => r.game_type = "Dialog" ∧ optTruthy r.dialog_answers)).length
    fuzzify ecological_validity_terms
      (min ((0.6 : ℚ) + choiceCount * 0.1 + paintCount * 0.1 + dialogCount * 0.1) 1)

/-- `calculate_dynamic_assessment` (fuzzy_logic.py 539-575). -/
def calculateDynamicAssessment (rs : List GameResult) : List (String × ℚ) :=
  if rs = [] then [("ограниченный", 0.3), ("умеренный", 0.5), ("широкий", 0.2)]
  else
    let multiplePoints := rs.length ≥ 3
    let gameTypes := distinctGameTypes rs
    let memProgress := ((rs.filter (fun r => r.game_type = "Memory")).map
      (fun r => (pmGet r "levels_completed" 0 : ℚ) / 4)).sum
    let seqProgress := ((rs.filter (fun r => r.game_type = "Sequence")).map
      (fun r => (pmGet r "level_reached" 1 : ℚ) / 5)).sum
    let puzProgress := ((rs.filter (fun r => r.game_type = "Puzzle" ∧ pmCompleted r)).length : ℚ)
    let progressScore := min ((memProgress + seqProgress + puzProgress) /
      ((max rs.length 1 : ℕ) : ℚ)) 1
    fuzzify dynamic_assessment_terms
      ((if multiplePoints then (1 : ℚ) else 0) * 0.35 +
        min ((gameTypes : ℚ) / 12) 1 * 0.4 + progressScore * 0.25)

/-! ### get_dynamics_data (diagnostic_panel.py 558-639), numeric core.
The interpretation text blocks and the `is_unstable` flag (which needs
`np.std`) only populate display strings and are not modelled. -/

def sortByDate (rs : List GameResult) : List GameResult :=
  rs.mergeSort (fun a b => decide (a.date ≤ b.date))

/-- `success_component = (1 - m/10 if m else 1)`. -/
def successComponent (m : ℕ) : ℚ :=
  if m ≠ 0 then 1 - (m : ℚ) / 10 else 1

structure DynamicsData where
  dates : List ℕ
  values : List ℚ
  percentiles : List ℕ
  corridors : List (List ℚ)
  mean_line : List ℚ
  trend : String
  diff : ℚ
  mean_val : ℚ
  is_stably_low : Bool

/-- `get_dynamics_data`: `None` for fewer than 2 records, otherwise the
wellbeing series with synthetic corridors and the half-vs-half trend. -/
def getDynamicsData (rs : List GameResult) : Option DynamicsData :=
  if rs.length < 2 then none
  else
    let sorted := sortByDate rs
    let dates := sorted.map (fun r => r.date)
    let values := sorted.map (fun r => (r.joy : ℚ) + (r.happiness : ℚ) + successComponent r.mistakes)
    let percentiles : List ℕ := [3, 10, 25, 50, 75, 90, 97]
    let corridors := percentiles.map (fun pp => dates.map (fun _ => (5 : ℚ) + (pp : ℚ) * 0.3))
    let firstHalf := values.take (values.length / 2)
    let secondHalf := values.drop (values.length / 2)
    let avgFirst := if firstHalf ≠ [] then meanQ firstHalf else 0
    let avgSecond := if secondHalf ≠ [] then meanQ secondHalf else 0
    let diff := avgSecond - avgFirst
    let trend := if diff > 0.5 then "improvement"
      else if diff < -0.5 then "worsening" else "stable"
    let meanVal := meanQ values
    let corridor50 := (5 : ℚ) + 50 * 0.3
    some { dates := dates, values := values, percentiles := percentiles,
           corridors := corridors,
           mean_line := dates.map (fun _ => corridor50),
           trend := trend, diff := diff, mean_val := meanVal,
           is_stably_low := decide (meanVal < corridor50 * 0.85) }

/-! ### FuzzyAnalyzer._match_diagnoses (fuzzy_logic.py 722-747) -/

/-- A value of the scored profile dict: either a term→degree mapping or a
plain label (e.g. `cognitive_style`). -/
inductive ProfileVal where
  | dict (entries : List (String × ℚ))
  | label (s : String)
deriving DecidableEq

abbrev Profile := List (String × ProfileVal)

/-- `data = profile_data.get(var_name, {})`, then `data.get(term, 0)` for a
dict and exact-label comparison otherwise. -/
def condValue (p : Profile) (varName term : String) : ℚ :=
  match lookupD p varName (ProfileVal.dict []) with
  | ProfileVal.dict entries => lookupD entries term 0
  | ProfileVal.label s => if s = term then 1 else 0

/-- The condition loop of `_match_diagnoses`: `min_match` accumulates the
minimum of satisfied values, a below-threshold condition returns 0
immediately, keys that do not split into exactly two parts are skipped. -/
def evalConds (p : Profile) : List (String × ℚ) → ℚ → ℚ
  | [], m => m
  | (key, th) :: rest, m =>
    match parseKey key with
    | [varName, term] =>
      let val := condValue p varName term
      if val ≥ th then evalConds p rest (min m val) else 0
    | _ => evalConds p rest m

/-- A diagnosis-catalog entry (accounts.models.DiagnosticDiagnosis fields
used by the matcher). -/
structure DiagEntry where
  code : String
  name : String
  fuzzy_conditions : List (String × ℚ)
  priority : ℤ
deriving DecidableEq

/-- The match degree of one entry (an entry with no conditions is skipped by
`continue`, hence never matched; its degree is 0 here). -/
def matchDegree (p : Profile) (e : DiagEntry) : ℚ :=
  if e.fuzzy_conditions = [] then 0 else evalConds p e.fuzzy_conditions 1

/-- The `matched` list before sorting, in catalog order. -/
def matchedList (p : Profile) (catalog : List DiagEntry) : List (DiagEntry × ℚ) :=
  catalog.filterMap (fun e =>
    if e.fuzzy_conditions = [] then none
    else
      let m := evalConds p e.fuzzy_conditions 1
      if m > 0 then some (e, m) else none)

/-- The sort key of `sorted(matched, key=lambda x: (-x[1], x[0].priority))`:
descending degree, then ascending priority. -/
def matchLE (x y : DiagEntry × ℚ) : Prop :=
  x.2 > y.2 ∨ (x.2 = y.2 ∧ x.1.priority ≤ y.1.priority)

instance : DecidableRel matchLE := fun x y => by unfold matchLE; infer_instance

instance : IsTotal (DiagEntry × ℚ) matchLE := by
  constructor
  intro a b
  unfold matchLE
  rcases lt_trichotomy a.2 b.2 with h | h | h
  · right; left; exact h
  · rcases le_total a.1.priority b.1.priority with hp | hp
    · left; right; exact ⟨h.symm ▸ rfl, hp⟩
    · right; right; exact ⟨h ▸ rfl, hp⟩
  · left; left; exact h

instance : IsTrans (DiagEntry × ℚ) matchLE := by
  constructor
  intro a b c hab hbc
  unfold matchLE at *
  rcases hab with h1 | ⟨e1, p1⟩
  · rcases hbc with h2 | ⟨e2, p2⟩
    · exact Or.inl (lt_trans h2 h1)
    · exact Or.inl (e2 ▸ h1)
  · rcases hbc with h2 | ⟨e2, p2⟩
    · exact Or.inl (e1 ▸ h2)
    · exact Or.inr ⟨e1.trans e2, le_trans p1 p2⟩

/-- `_match_diagnoses`: matched entries sorted by descending degree, ties by
ascending priority (Python `sorted` is a stable sort realising exactly this
total preorder; so is `List.insertionSort`). -/
def matchDiagnoses (p : Profile) (catalog : List DiagEntry) : List (DiagEntry × ℚ) :=
  List.insertionSort matchLE (matchedList p catalog)

/-- The well-formed (two-part-key) conditions of a condition list, as
`(variable, term, threshold)` triples; malformed keys are dropped, exactly
the ones the loop skips. -/
def parsedConds (conds : List (String × ℚ)) : List (String × String × ℚ) :=
  conds.filterMap (fun c =>
    match parseKey c.1 with
    | [v, t] => some (v, t, c.2)
    | _ => none)

/-- The profile values the well-formed conditions of a list look up. -/
def condVals (p : Profile) (conds : List (String × ℚ)) : List ℚ :=
  (parsedConds conds).map (fun c => condValue p c.1 c.2.1)

/-- Raising (or setting) the profile value of one variable/term: dict
assignment `profile[v][t] = w` (the variable is created as a fresh dict when
absent, matching the `profile_data.get(var_name, {})` read semantics). -/
def dictEntries (pv : ProfileVal) : List (String × ℚ) :=
  match pv with
  | ProfileVal.dict d => d
  | ProfileVal.label _ => []

def profileSet (p : Profile) (v t : String) (w : ℚ) : Profile :=
  setAssoc p v (ProfileVal.dict (setAssoc (dictEntries (lookupD p v (ProfileVal.dict []))) t w))

/-! ### Concrete inputs used to instantiate the claim theorems -/

def tieProfile : Profile := [("motivational_potential", ProfileVal.dict [("низкий", 0.8)])]

def diagPrio5 : DiagEntry :=
  ⟨"D_P5", "priority five", [("motivational_potential.низкий", 0.5)], 5⟩

def diagPrio2 : DiagEntry :=
  ⟨"D_P2", "priority two", [("motivational_potential.низкий", 0.5)], 2⟩

def depthProfile : Profile := [("diagnostic_depth", ProfileVal.dict [("высокая", 0.9)])]

def diagAbsentVar : DiagEntry :=
  ⟨"D_ABS", "absent variable", [("anxiety.высокая", 0.5), ("diagnostic_depth.высокая", 0.5)], 0⟩

def diagPresentOnly : DiagEntry :=
  ⟨"D_PRES", "present condition only", [("diagnostic_depth.высокая", 0.5)], 0⟩

def profC9 : Profile := [("diagnostic_depth", ProfileVal.dict [("высокая", 0.8)])]

def diagUnrelated : DiagEntry :=
  ⟨"D_UNREL", "unrelated entry", [("diagnostic_depth.высокая", 0.5)], 0⟩

def diagRaised : DiagEntry :=
  ⟨"D_RAIS", "raised entry", [("diagnostic_depth.высокая", 0.5), ("anxiety.высокая", 0.6)], 1⟩

def rt200Record : GameResult :=
  { emptyGameResult with game_type := "Reaction", reaction_times := [200, 200, 200] }

def rtSpreadRecord : GameResult :=
  { emptyGameResult with game_type := "Reaction", reaction_times := [200, 2000] }

def highMistakesRecord : GameResult :=
  { emptyGameResult with game_type := "Puzzle", mistakes := 10 }

def equalMistakeTypesRecord : GameResult :=
  { emptyGameResult with game_type := "Other", mistake_types := [("inhibition", 1), ("attention", 1)] }

def inhibitionRecord : GameResult :=
  { emptyGameResult with game_type := "Other", mistake_types := [("inhibition", 2)] }

def joyfulRecord : GameResult :=
  { emptyGameResult with joy := 2, anger := 1 }

/-! ## Helper lemmas -/

theorem lookupD_nil {α : Type} (k : String) (d : α) : lookupD [] k d = d := rfl

theorem lookupD_cons {α : Type} (k' : String) (v : α) (l : List (String × α)) (k : String) (d : α) :
    lookupD ((k', v) :: l) k d = if k' = k then v else lookupD l k d := by
  by_cases h : k' = k <;> simp [lookupD, List.find?, h]

/-! ## Claim theorems -/

/-- Claim C2, counterexample: the catalog term 'низкая' of diagnostic_depth
has breakpoints [0, 0, 0.3, 0.4] (degenerate, `a = b`); the boundary point
`x = 0` lies in `[b, c]`, yet `membership(0) = 0`, not 1, because the
function returns 0 whenever `x ≤ a`.  `compute_membership` agrees. -/
theorem C2_counterexample :
    (FuzzySet.mk 0 0 0.3 0.4).a = (FuzzySet.mk 0 0 0.3 0.4).b ∧
    (FuzzySet.mk 0 0 0.3 0.4).b ≤ 0 ∧ (0 : ℚ) ≤ (FuzzySet.mk 0 0 0.3 0.4).c ∧
    (FuzzySet.mk 0 0 0.3 0.4).membership 0 = 0 ∧
    computeMembership [0, 0, 0.3, 0.4] 0 = some 0 := by
  norm_num [FuzzySet.membership, trapMembership, computeMembership]

/-- Claim C2 (amended): for breakpoints `a ≤ b ≤ c ≤ d`, membership is 1 on
`[b, c] ∩ (a, d)`; at a degenerate boundary (`a = b` or `c = d`) the
function returns 0 (the `x ≤ a` / `x ≥ d` guard fires first, so no division
by zero is attempted); membership always lies in [0, 1]. -/
theorem C2_amended (a b c d x : ℚ) (hab : a ≤ b) (hbc : b ≤ c) (hcd : c ≤ d) :
    (b ≤ x → x ≤ c → a < x → x < d → trapMembership a b c d x = 1) ∧
    (a = b → trapMembership a b c d a = 0) ∧
    (c = d → trapMembership a b c d d = 0) ∧
    0 ≤ trapMembership a b c d x ∧ trapMembership a b c d x ≤ 1 := by
  refine ⟨?_, ?_, ?_, ?_⟩
  · intro h1 h2 h3 h4
    unfold trapMembership
    rw [if_neg (by push_neg; exact ⟨h3, h4⟩)]
    rw [if_neg (by rintro ⟨h5, h6⟩; linarith)]
    rw [if_pos ⟨h1, h2⟩]
  · intro _
    unfold trapMembership
    rw [if_pos (Or.inl le_rfl)]
  · intro _
    unfold trapMembership
    rw [if_pos (Or.inr le_rfl)]
  · unfold trapMembership
    split_ifs with h1 h2 h3 h4 h5 h6
    · exact ⟨le_rfl, by norm_num⟩
    · obtain ⟨hax, hxb⟩ := h2
      have hba : a < b := lt_trans hax hxb
      constructor
      · exact div_nonneg (by linarith) (by linarith)
      · rw [div_le_one (by linarith)]
        linarith
    · exact ⟨by norm_num, le_rfl⟩
    · exact ⟨by norm_num, le_rfl⟩
    · obtain ⟨hcx, hxd⟩ := h5
      have hcd2 : c < d := lt_trans hcx hxd
      constructor
      · exact div_nonneg (by linarith) (by linarith)
      · rw [div_le_one (by linarith)]
        linarith
    · exact ⟨by norm_num, le_rfl⟩
    · exact ⟨le_rfl, by norm_num⟩

/-- Witness for C2_amended: at breakpoints [0.3, 0.5, 0.7, 0.8] the interior
plateau point 0.6 gets membership 1, and at the degenerate [0, 0, 0.3, 0.4]
the boundary 0 gets membership 0. -/
theorem C2_witness :
    trapMembership 0.3 0.5 0.7 0.8 0.6 = 1 ∧ trapMembership 0 0 0.3 0.4 0 = 0 :=
  ⟨(C2_amended 0.3 0.5 0.7 0.8 0.6 (by norm_num) (by norm_num) (by norm_num)).1
      (by norm_num) (by norm_num) (by norm_num) (by norm_num),
    (C2_amended 0 0 0.3 0.4 0 (by norm_num) (by norm_num) (by norm_num)).2.1 rfl⟩

/-- Claim C4, counterexample: on an empty record list
`calculate_diagnostic_depth` returns {низкая: 0.5, средняя: 0.5, высокая: 0},
not the claimed ≈{low: 0.3, medium: 0.5, high: 0.2}. -/
theorem C4_counterexample :
    calculateDiagnosticDepth [] = [("низкая", 0.5), ("средняя", 0.5), ("высокая", 0)] ∧
    calculateDiagnosticDepth [] ≠ [("низкая", 0.3), ("средняя", 0.5), ("высокая", 0.2)] := by
  constructor
  · norm_num [calculateDiagnosticDepth]
  · norm_num [calculateDiagnosticDepth]

/-- Claim C4 (amended): on an empty record list `get_dynamics_data` returns
`None` and every axis scorer returns its fixed neutral default distribution;
diagnostic_depth's default is {0.5, 0.5, 0}, and the distribution
{0.3, 0.5, 0.2} named by the claim is dynamic_assessment's default. -/
theorem C4_amended_defaults :
    getDynamicsData [] = none ∧
    calculateDiagnosticDepth [] = [("низкая", 0.5), ("средняя", 0.5), ("высокая", 0)] ∧
    calculateMotivation [] = [("низкий", 0.5), ("умеренный", 0.5), ("высокий", 0)] ∧
    calculateObjectivity [] = [("низкая", 0.1), ("средняя", 0.3), ("высокая", 0.6)] ∧
    calculateEcologicalValidity [] = [("низкая", 0.2), ("средняя", 0.5), ("высокая", 0.3)] ∧
    calculateDynamicAssessment [] = [("ограниченный", 0.3), ("умеренный", 0.5), ("широкий", 0.2)] := by
  refine ⟨rfl, ?_, ?_, ?_, ?_, ?_⟩ <;>
    norm_num [calculateDiagnosticDepth, calculateMotivation, calculateObjectivity,
      calculateEcologicalValidity, calculateDynamicAssessment]

/-- Claim C10: for each of the ten [0,1]-scale linguistic variables (the five
assessment-quality axes and the five diagnostic parameters), fuzzifying the
extreme inputs 0 and 1 yields membership 0 for every term (membership is 0
whenever `x ≤ a` or `x ≥ d`); the Python `max`-style argmax over such an
all-zero mapping returns the first term with degree 0. -/
theorem C10_extreme_inputs :
    fuzzify diagnostic_depth_terms 0 = [("низкая", 0), ("средняя", 0), ("высокая", 0)] ∧
    fuzzify diagnostic_depth_terms 1 = [("низкая", 0), ("средняя", 0), ("высокая", 0)] ∧
    fuzzify motivational_potential_terms 0 = [("низкий", 0), ("умеренный", 0), ("высокий", 0)] ∧
    fuzzify motivational_potential_terms 1 = [("низкий", 0), ("умеренный", 0), ("высокий", 0)] ∧
    fuzzify objectivity_terms 0 = [("низкая", 0), ("средняя", 0), ("высокая", 0)] ∧
    fuzzify objectivity_terms 1 = [("низкая", 0), ("средняя", 0), ("высокая", 0)] ∧
    fuzzify ecological_validity_terms 0 = [("низкая", 0), ("средняя", 0), ("высокая", 0)] ∧
    fuzzify ecological_validity_terms 1 = [("низкая", 0), ("средняя", 0), ("высокая", 0)] ∧
    fuzzify dynamic_assessment_terms 0 = [("ограниченный", 0), ("умеренный", 0), ("широкий", 0)] ∧
    fuzzify dynamic_assessment_terms 1 = [("ограниченный", 0), ("умеренный", 0), ("широкий", 0)] ∧
    fuzzify impulsivity_param_terms 0 = [("низкий", 0), ("средний", 0), ("высокий", 0)] ∧
    fuzzify impulsivity_param_terms 1 = [("низкий", 0), ("средний", 0), ("высокий", 0)] ∧
    fuzzify cognitive_activity_param_terms 0 = [("исследующая", 0), ("направленная", 0), ("зависимая", 0)] ∧
    fuzzify cognitive_activity_param_terms 1 = [("исследующая", 0), ("направленная", 0), ("зависимая", 0)] ∧
    fuzzify strategy_param_terms 0 = [("систематическая", 0), ("импульсивная", 0), ("адаптивная", 0)] ∧
    fuzzify strategy_param_terms 1 = [("систематическая", 0), ("импульсивная", 0), ("адаптивная", 0)] ∧
    fuzzify cognitive_control_param_terms 0 = [("стабильный", 0), ("вариабельный", 0), ("истощаемый", 0)] ∧
    fuzzify cognitive_control_param_terms 1 = [("стабильный", 0), ("вариабельный", 0), ("истощаемый", 0)] ∧
    fuzzify anxiety_param_terms 0 = [("низкая", 0), ("умеренная", 0), ("высокая", 0)] ∧
    fuzzify anxiety_param_terms 1 = [("низкая", 0), ("умеренная", 0), ("высокая", 0)] ∧
    pyMaxBySnd (fuzzify diagnostic_depth_terms 1) = some ("низкая", 0) ∧
    pyMaxBySnd (fuzzify impulsivity_param_terms 1) = some ("низкий", 0) := by
  norm_num [fuzzify, FuzzySet.membership, trapMembership, pyMaxBySnd,
    diagnostic_depth_terms, motivational_potential_terms, objectivity_terms,
    ecological_validity_terms, dynamic_assessment_terms, impulsivity_param_terms,
    cognitive_activity_param_terms, strategy_param_terms,
    cognitive_control_param_terms, anxiety_param_terms]

theorem errorRateOf_nonneg (rs : List GameResult) : 0 ≤ errorRateOf rs := by
  unfold errorRateOf
  split_ifs with h
  · exact div_nonneg (Nat.cast_nonneg _) (Nat.cast_nonneg _)
  · norm_num

theorem cvOfR_nonneg (rts : List ℚ) : 0 ≤ cvOfR rts := by
  unfold cvOfR
  split_ifs with h
  · exact div_nonneg (Real.sqrt_nonneg _) (by exact_mod_cast le_of_lt h)
  · exact le_rfl

theorem meanQ_rt200 : meanQ [200, 200, 200] = 200 := by norm_num [meanQ]

theorem stdR_rt200 : stdR [200, 200, 200] = 0 := by
  have hv : varQ [200, 200, 200] = 0 := by norm_num [varQ, meanQ]
  rw [stdR, hv]
  norm_num

theorem cvOfR_rt200 : cvOfR [200, 200, 200] = 0 := by
  rw [cvOfR, if_pos (by norm_num [meanQ]), stdR_rt200]
  norm_num

theorem meanQ_rtSpread : meanQ [200, 2000] = 1100 := by norm_num [meanQ]

theorem stdR_rtSpread : stdR [200, 2000] = 900 := by
  have hv : varQ [200, 2000] = 810000 := by norm_num [varQ, meanQ]
  rw [stdR, hv, show ((810000 : ℚ) : ℝ) = 900 ^ 2 by norm_num]
  exact Real.sqrt_sq (by norm_num)

theorem cvOfR_rtSpread_gt : cvOfR [200, 2000] > 0.3 := by
  rw [cvOfR, if_pos (by rw [meanQ_rtSpread]; norm_num), stdR_rtSpread, meanQ_rtSpread]
  norm_num

theorem allRT_single (r : GameResult) : allRT [r] = r.reaction_times := by
  simp [allRT]

/-- Claim C3, counterexample: for pooled reaction times [200, 2000] the
coefficient of variation is 9/11 > 0.3, yet `extract_game_metrics` leaves
impulsivity at exactly the unadjusted clamp value 0.4 — no instability bonus
is applied to the impulsivity feature. -/
theorem C3_counterexample :
    cvOfR [200, 2000] > 0.3 ∧
    extractImpulsivity [rtSpreadRecord] =
      max 0 (min 1 (1 - (meanQ [200, 2000] - 200) / 1500)) ∧
    extractImpulsivity [rtSpreadRecord] = 0.4 := by
  have hall : allRT [rtSpreadRecord] = [200, 2000] := by
    simp [allRT, rtSpreadRecord, emptyGameResult]
  refine ⟨cvOfR_rtSpread_gt, ?_, ?_⟩
  · rw [extractImpulsivity, hall, if_neg (by simp), if_pos (by rw [meanQ_rtSpread]; norm_num)]
  · rw [extractImpulsivity, hall, if_neg (by simp), if_pos (by rw [meanQ_rtSpread]; norm_num),
      meanQ_rtSpread]
    norm_num [min_def, max_def]

/-- Claim C3 (amended): `extract_game_metrics` computes impulsivity as
`clamp01(1 − (mean − 200)/1500)` whenever the pooled mean is positive and
defaults to 0.5 with no samples, with no coefficient-of-variation
adjustment; the CV > 0.3 instability bonus lives in
`analyze_reaction_times`, where it raises the 'высокий' term membership by
0.2 (capped at 1); for reaction times [200, 200, 200], impulsivity = 1.0 and
cognitive_control = 0.0. -/
theorem C3_amended (rs : List GameResult) (rts : List ℚ) :
    (allRT rs = [] → extractImpulsivity rs = 0.5) ∧
    (meanQ (allRT rs) > 0 →
      extractImpulsivity rs = max 0 (min 1 (1 - (meanQ (allRT rs) - 200) / 1500))) ∧
    (rts ≠ [] → cvOfR rts > 0.3 →
      lookupD (analyzeReactionTimes rts) "высокий" 0 =
        min 1 (lookupD (fuzzify impulsivity_rt_terms (meanQ rts)) "высокий" 0 + 0.2)) ∧
    extractImpulsivity [rt200Record] = 1 ∧ extractCognitiveControl [rt200Record] = 0 := by
  have hall : allRT [rt200Record] = [200, 200, 200] := by
    simp [allRT, rt200Record, emptyGameResult]
  refine ⟨?_, ?_, ?_, ?_, ?_⟩
  · intro h
    rw [extractImpulsivity, if_pos h]
  · intro hm
    have hne : allRT rs ≠ [] := by
      intro h
      rw [h] at hm
      norm_num [meanQ] at hm
    rw [extractImpulsivity, if_neg hne, if_pos hm]
  · intro hne hcv
    rw [analyzeReactionTimes, if_neg hne]
    simp only [if_pos hcv]
    simp +decide [fuzzify, impulsivity_rt_terms, lookupD_cons, lookupD_nil]
  · rw [extractImpulsivity, hall, if_neg (by simp), if_pos (by rw [meanQ_rt200]; norm_num),
      meanQ_rt200]
    norm_num [min_def, max_def]
  · rw [extractCognitiveControl, hall, if_neg (by simp), cvOfR_rt200]
    norm_num [min_def]

/-- Witness for C3_amended: the no-sample default and the bonus equation at
the concrete reaction-time list [200, 2000] (whose CV is 9/11 > 0.3). -/
theorem C3_witness :
    extractImpulsivity [] = 0.5 ∧
    lookupD (analyzeReactionTimes [200, 2000]) "высокий" 0 =
      min 1 (lookupD (fuzzify impulsivity_rt_terms (meanQ [200, 2000])) "высокий" 0 + 0.2) :=
  ⟨(C3_amended [] [200, 2000]).1 (by simp [allRT]),
    (C3_amended [] [200, 2000]).2.2.1 (by simp) cvOfR_rtSpread_gt⟩

/-- Claim C6, counterexample: a single Puzzle record with 10 mistakes, no
reaction times and empty performance metrics gets `total_actions = 1`, so
`error_rate = 10` and `anxiety = 0.3 + 0.4 × (1 − 10) = −3.3 ∉ [0, 1]`. -/
theorem C6_counterexample :
    extractAnxiety [highMistakesRecord] = -3.3 ∧ extractAnxiety [highMistakesRecord] < 0 := by
  have hta : totalActions [highMistakesRecord] = 1 := by
    norm_num +decide [totalActions, recordActions, pmGet, lookupD_nil,
      highMistakesRecord, emptyGameResult]
  have htm : totalMistakes [highMistakesRecord] = 10 := by
    norm_num [totalMistakes, highMistakesRecord, emptyGameResult]
  have her : errorRateOf [highMistakesRecord] = 10 := by
    rw [errorRateOf, if_pos (by rw [hta]; norm_num), hta, htm]
    norm_num
  rw [extractAnxiety, if_pos (by rw [hta]; norm_num), her]
  norm_num

/-- Claim C6 (amended): impulsivity, cognitive_activity, strategy and
cognitive_control always lie in [0, 1]; anxiety is always ≤ 0.7 but is only
non-negative when the error rate is ≤ 1.75 — with more mistakes than 1.75 ×
actions it goes negative. -/
theorem C6_amended (rs : List GameResult) :
    0 ≤ extractImpulsivity rs ∧ extractImpulsivity rs ≤ 1 ∧
    0 ≤ extractCognitiveActivity rs ∧ extractCognitiveActivity rs ≤ 1 ∧
    0 ≤ extractStrategy rs ∧ extractStrategy rs ≤ 1 ∧
    0 ≤ extractCognitiveControl rs ∧ extractCognitiveControl rs ≤ 1 ∧
    extractAnxiety rs ≤ 0.7 ∧
    (errorRateOf rs ≤ 1.75 → 0 ≤ extractAnxiety rs) := by
  have her := errorRateOf_nonneg rs
  refine ⟨?_, ?_, ?_, ?_, ?_, ?_, ?_, ?_, ?_, ?_⟩
  · unfold extractImpulsivity
    dsimp only
    split_ifs with h1 h2
    · norm_num
    · exact le_max_left 0 _
    · norm_num
  · unfold extractImpulsivity
    dsimp only
    split_ifs with h1 h2
    · norm_num
    · exact max_le (by norm_num) (min_le_left 1 _)
    · norm_num
  · unfold extractCognitiveActivity
    exact le_min (by norm_num) (div_nonneg (Nat.cast_nonneg _) (Nat.cast_nonneg _))
  · exact min_le_left 1 _
  · unfold extractStrategy
    exact le_min (by norm_num) (mul_nonneg her (by norm_num))
  · exact min_le_left 1 _
  · unfold extractCognitiveControl
    split_ifs with h1
    · norm_num
    · exact le_min (by norm_num) (mul_nonneg (cvOfR_nonneg _) (by norm_num))
  · unfold extractCognitiveControl
    split_ifs with h1
    · norm_num
    · exact min_le_left 1 _
  · unfold extractAnxiety
    split_ifs with h1
    · linarith
    · norm_num
  · intro hle
    unfold extractAnxiety
    split_ifs with h1
    · linarith
    · norm_num

/-- Witness for C6_amended at the empty record list (error rate defaults to
0.2 ≤ 1.75, so anxiety is 0.4 ∈ [0, 1] there). -/
theorem C6_witness :
    0 ≤ extractImpulsivity [] ∧ extractImpulsivity [] ≤ 1 ∧
    0 ≤ extractCognitiveActivity [] ∧ extractCognitiveActivity [] ≤ 1 ∧
    0 ≤ extractStrategy [] ∧ extractStrategy [] ≤ 1 ∧
    0 ≤ extractCognitiveControl [] ∧ extractCognitiveControl [] ≤ 1 ∧
    extractAnxiety [] ≤ 0.7 ∧ 0 ≤ extractAnxiety [] := by
  have h := C6_amended []
  exact ⟨h.1, h.2.1, h.2.2.1, h.2.2.2.1, h.2.2.2.2.1, h.2.2.2.2.2.1, h.2.2.2.2.2.2.1,
    h.2.2.2.2.2.2.2.1, h.2.2.2.2.2.2.2.2.1,
    h.2.2.2.2.2.2.2.2.2 (by norm_num [errorRateOf, totalActions])⟩

theorem mem_foldl_keys (l : List String) (acc : List String) (v : String) :
    v ∈ l.foldl (fun a x => if x ∈ a then a else a ++ [x]) acc ↔ v ∈ acc ∨ v ∈ l := by
  induction l generalizing acc with
  | nil => simp
  | cons x xs ih =>
    simp only [List.foldl_cons, ih, List.mem_cons]
    by_cases hx : x ∈ acc
    · rw [if_pos hx]
      constructor
      · rintro (h | h)
        · exact Or.inl h
        · exact Or.inr (Or.inr h)
      · rintro (h | h | h)
        · exact Or.inl h
        · exact Or.inl (h ▸ hx)
        · exact Or.inr h
    · rw [if_neg hx]
      simp only [List.mem_append, List.mem_singleton]
      tauto

theorem mem_keysInOrder (l : List String) (v : String) :
    v ∈ keysInOrder l ↔ v ∈ l := by
  rw [keysInOrder, mem_foldl_keys]
  simp

theorem foldl_maxCount (votes : List String) (ks : List String) (b : String) :
    (ks.foldl (fun best k2 => if votes.count k2 > votes.count best then k2 else best) b = b ∨
      ks.foldl (fun best k2 => if votes.count k2 > votes.count best then k2 else best) b ∈ ks) ∧
    votes.count b ≤
      votes.count (ks.foldl (fun best k2 => if votes.count k2 > votes.count best then k2 else best) b) ∧
    ∀ k ∈ ks, votes.count k ≤
      votes.count (ks.foldl (fun best k2 => if votes.count k2 > votes.count best then k2 else best) b) := by
  induction ks generalizing b with
  | nil => exact ⟨Or.inl rfl, le_rfl, by simp⟩
  | cons x xs ih =>
    simp only [List.foldl_cons]
    by_cases hx : votes.count x > votes.count b
    · rw [if_pos hx]
      obtain ⟨hmem, hb, hall⟩ := ih x
      refine ⟨?_, le_trans (le_of_lt hx) hb, ?_⟩
      · rcases hmem with h | h
        · exact Or.inr (by rw [h]; exact List.mem_cons_self x xs)
        · exact Or.inr (List.mem_cons_of_mem x h)
      · intro k hk
        rcases List.mem_cons.mp hk with rfl | hk2
        · exact hb
        · exact hall k hk2
    · rw [if_neg hx]
      obtain ⟨hmem, hb, hall⟩ := ih b
      refine ⟨?_, hb, ?_⟩
      · rcases hmem with h | h
        · exact Or.inl h
        · exact Or.inr (List.mem_cons_of_mem x h)
      · intro k hk
        rcases List.mem_cons.mp hk with rfl | hk2
        · exact le_trans (not_lt.mp hx) hb
        · exact hall k hk2

theorem mostCommonVote_spec (votes : List String) (hne : votes ≠ []) :
    ∃ s, mostCommonVote votes = some s ∧ s ∈ votes ∧
      ∀ v ∈ votes, votes.count v ≤ votes.count s := by
  have hkeys : keysInOrder votes ≠ [] := by
    obtain ⟨x, xs, rfl⟩ := List.exists_cons_of_ne_nil hne
    intro h
    have : x ∈ keysInOrder (x :: xs) := (mem_keysInOrder _ _).mpr (List.mem_cons_self x xs)
    rw [h] at this
    exact List.not_mem_nil x this
  obtain ⟨k, ks, hk⟩ := List.exists_cons_of_ne_nil hkeys
  obtain ⟨hmem, hb, hall⟩ := foldl_maxCount votes ks k
  refine ⟨ks.foldl (fun best k2 => if votes.count k2 > votes.count best then k2 else best) k,
    ?_, ?_, ?_⟩
  · rw [mostCommonVote, hk]
  · rcases hmem with h | h
    · rw [h]
      exact (mem_keysInOrder _ _).mp (hk ▸ List.mem_cons_self k ks)
    · exact (mem_keysInOrder _ _).mp (hk ▸ List.mem_cons_of_mem k h)
  · intro v hv
    have hvk : v ∈ k :: ks := hk ▸ (mem_keysInOrder _ _).mpr hv
    rcases List.mem_cons.mp hvk with rfl | hv2
    · exact hb
    · exact hall v hv2

/-- Claim C7, counterexample: a record whose `mistake_types` has equal
inhibition and attention counts (both 1) produces no mistake-type vote at
all — not the claimed 'systematic' vote — so a history consisting of that
single record classifies as 'unknown'. -/
theorem C7_counterexample :
    equalMistakeTypesRecord.mistake_types ≠ [] ∧
    mtGet equalMistakeTypesRecord "inhibition" = mtGet equalMistakeTypesRecord "attention" ∧
    mistakeTypeVotes equalMistakeTypesRecord = [] ∧
    recordVotes equalMistakeTypesRecord = [] ∧
    analyzeStrategy [equalMistakeTypesRecord] = "unknown" ∧
    analyzeStrategy [equalMistakeTypesRecord] ≠ "systematic" := by
  refine ⟨by decide, by decide, by decide, ?_, ?_, ?_⟩ <;>
    norm_num +decide [recordVotes, strategyTypeVotes, mistakeTypeVotes, sequenceVotes,
      puzzleVotes, memoryVotes, gonogoVotes, analyzeStrategy, mostCommonVote, keysInOrder,
      mtGet, pmGet, pmCompleted, lookupD_cons, lookupD_nil,
      equalMistakeTypesRecord, emptyGameResult]

/-- Claim C7 (amended): the mistake-type signal votes 'impulsive' when
inhibition > attention and 'systematic' when attention > inhibition, but
appends no vote when the two counts are equal; `analyze_strategy` returns a
vote of maximal count among all appended votes (the first-encountered one on
ties), and 'unknown' when no votes were produced. -/
theorem C7_amended (rs : List GameResult) (r : GameResult) :
    (r.mistake_types ≠ [] → mtGet r "inhibition" > mtGet r "attention" →
      mistakeTypeVotes r = ["impulsive"]) ∧
    (r.mistake_types ≠ [] → mtGet r "attention" > mtGet r "inhibition" →
      mistakeTypeVotes r = ["systematic"]) ∧
    (mtGet r "inhibition" = mtGet r "attention" → mistakeTypeVotes r = []) ∧
    (rs ≠ [] → rs.flatMap recordVotes ≠ [] →
      analyzeStrategy rs ∈ rs.flatMap recordVotes ∧
      ∀ v ∈ rs.flatMap recordVotes,
        (rs.flatMap recordVotes).count v ≤ (rs.flatMap recordVotes).count (analyzeStrategy rs)) ∧
    (rs.flatMap recordVotes = [] → analyzeStrategy rs = "unknown") := by
  refine ⟨?_, ?_, ?_, ?_, ?_⟩
  · intro hne hgt
    rw [mistakeTypeVotes, if_pos hne, if_pos hgt]
  · intro hne hgt
    rw [mistakeTypeVotes, if_pos hne, if_neg (by omega), if_pos hgt]
  · intro heq
    rw [mistakeTypeVotes]
    split_ifs with h1 h2 h3
    · omega
    · omega
    · rfl
    · rfl
  · intro hrs hvotes
    obtain ⟨s, hs, hmem, hmax⟩ := mostCommonVote_spec _ hvotes
    rw [analyzeStrategy, if_neg hrs, hs]
    exact ⟨hmem, hmax⟩
  · intro hvotes
    by_cases hrs : rs = []
    · rw [analyzeStrategy, if_pos hrs]
    · rw [analyzeStrategy, if_neg hrs, hvotes]
      rfl

/-- Witness for C7_amended: a single record with inhibition 2 > attention 0
votes 'impulsive' and the classifier returns a maximal vote. -/
theorem C7_witness :
    mistakeTypeVotes inhibitionRecord = ["impulsive"] ∧
    analyzeStrategy [inhibitionRecord] ∈ List.flatMap [inhibitionRecord] recordVotes := by
  have h := C7_amended [inhibitionRecord] inhibitionRecord
  refine ⟨h.1 (by decide) (by decide), ?_⟩
  refine (h.2.2.2.1 (by simp) ?_).1
  norm_num +decide [recordVotes, strategyTypeVotes, mistakeTypeVotes, sequenceVotes,
    puzzleVotes, memoryVotes, gonogoVotes, mtGet, pmGet, pmCompleted,
    lookupD_cons, lookupD_nil, inhibitionRecord, emptyGameResult]

/-- Claim C8: emotion shares sum to exactly 1 whenever the summed emotion
total is positive, and are all zero (no division performed) when the total
is 0. -/
theorem C8_emotion_shares (rs : List GameResult) :
    (0 < emotionTotal rs → ((analyzeEmotions rs).map Prod.snd).sum = 1) ∧
    (emotionTotal rs = 0 → ∀ q ∈ analyzeEmotions rs, q.2 = 0) := by
  constructor
  · intro h
    have hT : ((emotionTotal rs : ℕ) : ℚ) ≠ 0 := by
      exact_mod_cast h.ne'
    rw [analyzeEmotions, if_neg h.ne']
    simp only [emotionSums, List.map_cons, List.map_nil, List.sum_cons, List.sum_nil, add_zero]
    rw [div_add_div_same, div_add_div_same, div_add_div_same, div_add_div_same,
      div_add_div_same, div_eq_one_iff_eq hT]
    simp only [emotionTotal, emotionSums, List.map_cons, List.map_nil, List.sum_cons,
      List.sum_nil, add_zero]
    push_cast
    ring
  · intro h
    rw [analyzeEmotions, if_pos h]
    intro q hq
    simp only [List.mem_map] at hq
    obtain ⟨p, _, rfl⟩ := hq
    rfl

/-- Witness for C8: one record with joy 2 and anger 1 has emotion total 3 and
shares summing to exactly 1. -/
theorem C8_witness : ((analyzeEmotions [joyfulRecord]).map Prod.snd).sum = 1 :=
  (C8_emotion_shares [joyfulRecord]).1
    (by norm_num [emotionTotal, emotionSums, joyfulRecord, emptyGameResult])

/-! ### Lemmas about the condition loop of `_match_diagnoses` -/

theorem parsedConds_cons_parsed (key : String) (th : ℚ) (rest : List (String × ℚ))
    (v t : String) (hk : parseKey key = [v, t]) :
    parsedConds ((key, th) :: rest) = (v, t, th) :: parsedConds rest := by
  rw [parsedConds, List.filterMap_cons, parsedConds]
  simp only [hk]

theorem parsedConds_cons_skip (key : String) (th : ℚ) (rest : List (String × ℚ))
    (hk : (parseKey key).length ≠ 2) :
    parsedConds ((key, th) :: rest) = parsedConds rest := by
  rw [parsedConds, List.filterMap_cons, parsedConds]
  rcases hp : parseKey key with _ | ⟨a, _ | ⟨b, _ | ⟨u, tl⟩⟩⟩
  · simp only [hp]
  · simp only [hp]
  · exact absurd (by rw [hp]; rfl) hk
  · simp only [hp]

theorem condVals_cons_parsed (p : Profile) (key : String) (th : ℚ)
    (rest : List (String × ℚ)) (v t : String) (hk : parseKey key = [v, t]) :
    condVals p ((key, th) :: rest) = condValue p v t :: condVals p rest := by
  rw [condVals, parsedConds_cons_parsed key th rest v t hk, List.map_cons, condVals]

theorem condVals_cons_skip (p : Profile) (key : String) (th : ℚ)
    (rest : List (String × ℚ)) (hk : (parseKey key).length ≠ 2) :
    condVals p ((key, th) :: rest) = condVals p rest := by
  rw [condVals, parsedConds_cons_skip key th rest hk, condVals]

theorem evalConds_cons_parsed (p : Profile) (key : String) (th : ℚ)
    (rest : List (String × ℚ)) (m : ℚ) (v t : String) (hk : parseKey key = [v, t]) :
    evalConds p ((key, th) :: rest) m =
      if th ≤ condValue p v t then evalConds p rest (min m (condValue p v t)) else 0 := by
  simp only [evalConds, hk, ge_iff_le]

theorem evalConds_cons_skip (p : Profile) (key : String) (th : ℚ)
    (rest : List (String × ℚ)) (m : ℚ) (hk : (parseKey key).length ≠ 2) :
    evalConds p ((key, th) :: rest) m = evalConds p rest m := by
  rcases hp : parseKey key with _ | ⟨a, _ | ⟨b, _ | ⟨u, tl⟩⟩⟩
  · simp only [evalConds, hp]
  · simp only [evalConds, hp]
  · exact absurd (by rw [hp]; rfl) hk
  · simp only [evalConds, hp]

theorem foldl_min_le_init (l : List ℚ) (m : ℚ) : l.foldl min m ≤ m := by
  induction l generalizing m with
  | nil => exact le_rfl
  | cons x xs ih => exact le_trans (ih (min m x)) (min_le_left m x)

theorem foldl_min_le_mem (l : List ℚ) (m : ℚ) : ∀ v ∈ l, l.foldl min m ≤ v := by
  induction l generalizing m with
  | nil => simp
  | cons x xs ih =>
    intro v hv
    rcases List.mem_cons.mp hv with rfl | h2
    · exact le_trans (foldl_min_le_init xs (min m v)) (min_le_right m v)
    · exact ih (min m x) v h2

theorem foldl_min_eq_or_mem (l : List ℚ) (m : ℚ) : l.foldl min m = m ∨ l.foldl min m ∈ l := by
  induction l generalizing m with
  | nil => exact Or.inl rfl
  | cons x xs ih =>
    rw [List.foldl_cons]
    rcases ih (min m x) with h | h
    · rw [h]
      rcases le_total m x with hmx | hxm
      · exact Or.inl (min_eq_left hmx)
      · exact Or.inr (by rw [min_eq_right hxm]; exact List.mem_cons_self x xs)
    · exact Or.inr (List.mem_cons_of_mem x h)

theorem evalConds_all_sat (p : Profile) (conds : List (String × ℚ)) (m : ℚ)
    (h : ∀ c ∈ parsedConds conds, c.2.2 ≤ condValue p c.1 c.2.1) :
    evalConds p conds m = (condVals p conds).foldl min m := by
  induction conds generalizing m with
  | nil => simp [evalConds, condVals, parsedConds]
  | cons c rest ih =>
    obtain ⟨key, th⟩ := c
    rcases hp : parseKey key with _ | ⟨a, _ | ⟨b, _ | ⟨u, tl⟩⟩⟩
    · have hlen : (parseKey key).length ≠ 2 := by rw [hp]; simp
      rw [parsedConds_cons_skip key th rest hlen] at h
      rw [evalConds_cons_skip p key th rest m hlen, condVals_cons_skip p key th rest hlen]
      exact ih m h
    · have hlen : (parseKey key).length ≠ 2 := by rw [hp]; simp
      rw [parsedConds_cons_skip key th rest hlen] at h
      rw [evalConds_cons_skip p key th rest m hlen, condVals_cons_skip p key th rest hlen]
      exact ih m h
    · rw [parsedConds_cons_parsed key th rest a b hp] at h
      have hhead := h (a, b, th) (List.mem_cons_self _ _)
      rw [evalConds_cons_parsed p key th rest m a b hp, if_pos hhead,
        condVals_cons_parsed p key th rest a b hp, List.foldl_cons]
      exact ih _ (fun c hc => h c (List.mem_cons_of_mem _ hc))
    · have hlen : (parseKey key).length ≠ 2 := by rw [hp]; simp
      rw [parsedConds_cons_skip key th rest hlen] at h
      rw [evalConds_cons_skip p key th rest m hlen, condVals_cons_skip p key th rest hlen]
      exact ih m h

theorem evalConds_fail (p : Profile) (conds : List (String × ℚ)) (m : ℚ)
    (h : ∃ c ∈ parsedConds conds, condValue p c.1 c.2.1 < c.2.2) :
    evalConds p conds m = 0 := by
  induction conds generalizing m with
  | nil => simp [parsedConds] at h
  | cons c rest ih =>
    obtain ⟨key, th⟩ := c
    rcases hp : parseKey key with _ | ⟨a, _ | ⟨b, _ | ⟨u, tl⟩⟩⟩
    · have hlen : (parseKey key).length ≠ 2 := by rw [hp]; simp
      rw [parsedConds_cons_skip key th rest hlen] at h
      rw [evalConds_cons_skip p key th rest m hlen]
      exact ih m h
    · have hlen : (parseKey key).length ≠ 2 := by rw [hp]; simp
      rw [parsedConds_cons_skip key th rest hlen] at h
      rw [evalConds_cons_skip p key th rest m hlen]
      exact ih m h
    · rw [parsedConds_cons_parsed key th rest a b hp] at h
      rw [evalConds_cons_parsed p key th rest m a b hp]
      obtain ⟨c2, hc2, hlt⟩ := h
      rcases List.mem_cons.mp hc2 with rfl | hc3
      · rw [if_neg (not_le.mpr hlt)]
      · split_ifs with hcond
        · exact ih _ ⟨c2, hc3, hlt⟩
        · rfl
    · have hlen : (parseKey key).length ≠ 2 := by rw [hp]; simp
      rw [parsedConds_cons_skip key th rest hlen] at h
      rw [evalConds_cons_skip p key th rest m hlen]
      exact ih m h

theorem evalConds_pos (p : Profile) (conds : List (String × ℚ)) (m : ℚ) (hm : 0 < m)
    (h : ∀ c ∈ parsedConds conds, c.2.2 ≤ condValue p c.1 c.2.1 ∧ 0 < condValue p c.1 c.2.1) :
    0 < evalConds p conds m := by
  induction conds generalizing m with
  | nil => exact hm
  | cons c rest ih =>
    obtain ⟨key, th⟩ := c
    rcases hp : parseKey key with _ | ⟨a, _ | ⟨b, _ | ⟨u, tl⟩⟩⟩
    · have hlen : (parseKey key).length ≠ 2 := by rw [hp]; simp
      rw [parsedConds_cons_skip key th rest hlen] at h
      rw [evalConds_cons_skip p key th rest m hlen]
      exact ih m hm h
    · have hlen : (parseKey key).length ≠ 2 := by rw [hp]; simp
      rw [parsedConds_cons_skip key th rest hlen] at h
      rw [evalConds_cons_skip p key th rest m hlen]
      exact ih m hm h
    · rw [parsedConds_cons_parsed key th rest a b hp] at h
      have hhead := h (a, b, th) (List.mem_cons_self _ _)
      rw [evalConds_cons_parsed p key th rest m a b hp, if_pos hhead.1]
      exact ih _ (lt_min hm hhead.2) (fun c hc => h c (List.mem_cons_of_mem _ hc))
    · have hlen : (parseKey key).length ≠ 2 := by rw [hp]; simp
      rw [parsedConds_cons_skip key th rest hlen] at h
      rw [evalConds_cons_skip p key th rest m hlen]
      exact ih m hm h

theorem evalConds_congr (p p2 : Profile) (conds : List (String × ℚ)) (m : ℚ)
    (h : ∀ c ∈ parsedConds conds, condValue p2 c.1 c.2.1 = condValue p c.1 c.2.1) :
    evalConds p2 conds m = evalConds p conds m := by
  induction conds generalizing m with
  | nil => rfl
  | cons c rest ih =>
    obtain ⟨key, th⟩ := c
    rcases hp : parseKey key with _ | ⟨a, _ | ⟨b, _ | ⟨u, tl⟩⟩⟩
    · have hlen : (parseKey key).length ≠ 2 := by rw [hp]; simp
      rw [parsedConds_cons_skip key th rest hlen] at h
      rw [evalConds_cons_skip p key th rest m hlen, evalConds_cons_skip p2 key th rest m hlen]
      exact ih m h
    · have hlen : (parseKey key).length ≠ 2 := by rw [hp]; simp
      rw [parsedConds_cons_skip key th rest hlen] at h
      rw [evalConds_cons_skip p key th rest m hlen, evalConds_cons_skip p2 key th rest m hlen]
      exact ih m h
    · rw [parsedConds_cons_parsed key th rest a b hp] at h
      have hhead := h (a, b, th) (List.mem_cons_self _ _)
      rw [evalConds_cons_parsed p key th rest m a b hp,
        evalConds_cons_parsed p2 key th rest m a b hp, hhead]
      split_ifs with hcond
      · exact ih _ (fun c hc => h c (List.mem_cons_of_mem _ hc))
      · rfl
    · have hlen : (parseKey key).length ≠ 2 := by rw [hp]; simp
      rw [parsedConds_cons_skip key th rest hlen] at h
      rw [evalConds_cons_skip p key th rest m hlen, evalConds_cons_skip p2 key th rest m hlen]
      exact ih m h

theorem evalConds_from_zero (p : Profile) (conds : List (String × ℚ))
    (hnn : ∀ c ∈ parsedConds conds, 0 ≤ condValue p c.1 c.2.1) :
    evalConds p conds 0 = 0 := by
  induction conds with
  | nil => rfl
  | cons c rest ih =>
    obtain ⟨key, th⟩ := c
    rcases hp : parseKey key with _ | ⟨a, _ | ⟨b, _ | ⟨u, tl⟩⟩⟩
    · have hlen : (parseKey key).length ≠ 2 := by rw [hp]; simp
      rw [parsedConds_cons_skip key th rest hlen] at hnn
      rw [evalConds_cons_skip p key th rest 0 hlen]
      exact ih hnn
    · have hlen : (parseKey key).length ≠ 2 := by rw [hp]; simp
      rw [parsedConds_cons_skip key th rest hlen] at hnn
      rw [evalConds_cons_skip p key th rest 0 hlen]
      exact ih hnn
    · rw [parsedConds_cons_parsed key th rest a b hp] at hnn
      have hhead := hnn (a, b, th) (List.mem_cons_self _ _)
      rw [evalConds_cons_parsed p key th rest 0 a b hp]
      split_ifs with hcond
      · rw [min_eq_left hhead]
        exact ih (fun c hc => hnn c (List.mem_cons_of_mem _ hc))
      · rfl
    · have hlen : (parseKey key).length ≠ 2 := by rw [hp]; simp
      rw [parsedConds_cons_skip key th rest hlen] at hnn
      rw [evalConds_cons_skip p key th rest 0 hlen]
      exact ih hnn

theorem evalConds_zero_val (p : Profile) (conds : List (String × ℚ)) (m : ℚ) (hm : 0 ≤ m)
    (hnn : ∀ c ∈ parsedConds conds, 0 ≤ condValue p c.1 c.2.1)
    (h : ∃ c ∈ parsedConds conds, condValue p c.1 c.2.1 = 0) :
    evalConds p conds m = 0 := by
  induction conds generalizing m with
  | nil => simp [parsedConds] at h
  | cons c rest ih =>
    obtain ⟨key, th⟩ := c
    rcases hp : parseKey key with _ | ⟨a, _ | ⟨b, _ | ⟨u, tl⟩⟩⟩
    · have hlen : (parseKey key).length ≠ 2 := by rw [hp]; simp
      rw [parsedConds_cons_skip key th rest hlen] at hnn h
      rw [evalConds_cons_skip p key th rest m hlen]
      exact ih m hm hnn h
    · have hlen : (parseKey key).length ≠ 2 := by rw [hp]; simp
      rw [parsedConds_cons_skip key th rest hlen] at hnn h
      rw [evalConds_cons_skip p key th rest m hlen]
      exact ih m hm hnn h
    · rw [parsedConds_cons_parsed key th rest a b hp] at hnn h
      have hrest : ∀ c ∈ parsedConds rest, 0 ≤ condValue p c.1 c.2.1 :=
        fun c hc => hnn c (List.mem_cons_of_mem _ hc)
      rw [evalConds_cons_parsed p key th rest m a b hp]
      obtain ⟨c2, hc2, hzero⟩ := h
      rcases List.mem_cons.mp hc2 with rfl | hc3
      · dsimp only at hzero
        rw [hzero]
        split_ifs with hcond
        · rw [min_eq_right hm]
          exact evalConds_from_zero p rest hrest
        · rfl
      · split_ifs with hcond
        · exact ih _ (le_min hm (hnn (a, b, th) (List.mem_cons_self _ _))) hrest ⟨c2, hc3, hzero⟩
        · rfl
    · have hlen : (parseKey key).length ≠ 2 := by rw [hp]; simp
      rw [parsedConds_cons_skip key th rest hlen] at hnn h
      rw [evalConds_cons_skip p key th rest m hlen]
      exact ih m hm hnn h

theorem condValue_absent (p : Profile) (v t : String)
    (h : p.find? (fun q => q.1 = v) = none) : condValue p v t = 0 := by
  rw [condValue, lookupD, h]
  rfl

theorem mem_matchedList (p : Profile) (catalog : List DiagEntry) (x : DiagEntry) (m : ℚ) :
    (x, m) ∈ matchedList p catalog ↔
      x ∈ catalog ∧ x.fuzzy_conditions ≠ [] ∧ m = evalConds p x.fuzzy_conditions 1 ∧ 0 < m := by
  rw [matchedList, List.mem_filterMap]
  constructor
  · rintro ⟨a, ha, hf⟩
    by_cases h1 : a.fuzzy_conditions = []
    · simp [h1] at hf
    · by_cases h2 : evalConds p a.fuzzy_conditions 1 > 0
      · simp only [h1, if_false, if_neg h1, if_pos h2, Option.some.injEq, Prod.mk.injEq] at hf
        obtain ⟨rfl, rfl⟩ := hf
        exact ⟨ha, h1, rfl, h2⟩
      · simp [h1, h2] at hf
  · rintro ⟨hx, h1, rfl, h2⟩
    exact ⟨x, hx, by simp [h1, h2]⟩

theorem mem_fst_matchDiagnoses (p : Profile) (catalog : List DiagEntry) (x : DiagEntry) :
    x ∈ (matchDiagnoses p catalog).map Prod.fst ↔ x ∈ catalog ∧ 0 < matchDegree p x := by
  rw [matchDiagnoses]
  rw [((List.perm_insertionSort matchLE (matchedList p catalog)).map Prod.fst).mem_iff]
  simp only [List.mem_map]
  constructor
  · rintro ⟨⟨a, m⟩, hmem, rfl⟩
    obtain ⟨hx, h1, hm, hpos⟩ := (mem_matchedList p catalog a m).mp hmem
    rw [matchDegree, if_neg h1, ← hm]
    exact ⟨hx, hpos⟩
  · rintro ⟨hx, hpos⟩
    have h1 : x.fuzzy_conditions ≠ [] := by
      intro h
      rw [matchDegree, if_pos h] at hpos
      exact lt_irrefl 0 hpos
    rw [matchDegree, if_neg h1] at hpos
    exact ⟨(x, evalConds p x.fuzzy_conditions 1),
      (mem_matchedList p catalog x _).mpr ⟨hx, h1, rfl, hpos⟩, rfl⟩

theorem lookupD_setAssoc {α : Type} (l : List (String × α)) (k : String) (x : α)
    (k2 : String) (d : α) :
    lookupD (setAssoc l k x) k2 d = if k = k2 then x else lookupD l k2 d := by
  induction l with
  | nil =>
    by_cases h : k = k2 <;> simp [setAssoc, lookupD_cons, lookupD_nil, h]
  | cons q rest ih =>
    obtain ⟨qk, qv⟩ := q
    by_cases h1 : qk = k
    · subst h1
      rw [setAssoc]
      rw [if_pos rfl]
      by_cases h2 : qk = k2 <;> simp [lookupD_cons, h2]
    · rw [setAssoc, if_neg h1]
      by_cases h2 : qk = k2
      · subst h2
        have h3 : ¬ k = qk := fun h => h1 h.symm
        simp [lookupD_cons, h3]
      · simp [lookupD_cons, h2, ih]

theorem condValue_profileSet (p : Profile) (v t : String) (w : ℚ)
    (hd : ∃ entries, lookupD p v (ProfileVal.dict []) = ProfileVal.dict entries)
    (v2 t2 : String) :
    condValue (profileSet p v t w) v2 t2 =
      if v2 = v ∧ t2 = t then w else condValue p v2 t2 := by
  obtain ⟨entries, he⟩ := hd
  have hde : dictEntries (lookupD p v (ProfileVal.dict [])) = entries := by
    rw [he]
    rfl
  rw [profileSet, hde, condValue, lookupD_setAssoc]
  by_cases h1 : v = v2
  · rw [if_pos h1]
    show lookupD (setAssoc entries t w) t2 0 = _
    rw [lookupD_setAssoc]
    by_cases h2 : t = t2
    · rw [if_pos h2, if_pos ⟨h1.symm, h2.symm⟩]
    · rw [if_neg h2, if_neg (fun hand => h2 hand.2.symm), condValue, ← h1, he]
  · rw [if_neg h1, if_neg (fun hand => h1 hand.1.symm), condValue]

/-- Claim C1: each catalog entry's match degree is the minimum of its
(profile-bounded, all-satisfied) condition values; any single condition
whose profile value is below its threshold forces the degree to 0; the
returned list is sorted by descending degree with ties broken by ascending
priority and is a permutation of the positive-degree entries; in the
concrete two-entry scenario with identical degree 0.8 and priorities 5 and
2, the priority-2 entry is listed first. -/
theorem C1_match_semantics (p : Profile) (e : DiagEntry) (catalog : List DiagEntry)
    (hne : condVals p e.fuzzy_conditions ≠ [])
    (hsat : ∀ c ∈ parsedConds e.fuzzy_conditions, c.2.2 ≤ condValue p c.1 c.2.1)
    (hb : ∀ u ∈ condVals p e.fuzzy_conditions, u ≤ 1) :
    (matchDegree p e ∈ condVals p e.fuzzy_conditions ∧
      ∀ u ∈ condVals p e.fuzzy_conditions, matchDegree p e ≤ u) ∧
    (∀ e2 : DiagEntry,
      (∃ c ∈ parsedConds e2.fuzzy_conditions, condValue p c.1 c.2.1 < c.2.2) →
      matchDegree p e2 = 0) ∧
    (matchDiagnoses p catalog).Sorted matchLE ∧
    (matchDiagnoses p catalog).Perm (matchedList p catalog) ∧
    matchDiagnoses tieProfile [diagPrio5, diagPrio2] = [(diagPrio2, 0.8), (diagPrio5, 0.8)] := by
  have hcne : e.fuzzy_conditions ≠ [] := by
    intro h
    apply hne
    rw [h, condVals, parsedConds]
    rfl
  have hdeg : matchDegree p e = (condVals p e.fuzzy_conditions).foldl min 1 := by
    rw [matchDegree, if_neg hcne, evalConds_all_sat p _ 1 hsat]
  refine ⟨?_, ?_, ?_, ?_, ?_⟩
  · constructor
    · rcases foldl_min_eq_or_mem (condVals p e.fuzzy_conditions) 1 with h | h
      · obtain ⟨v0, vrest, hv⟩ := List.exists_cons_of_ne_nil hne
        have hle : (condVals p e.fuzzy_conditions).foldl min 1 ≤ v0 :=
          foldl_min_le_mem _ 1 v0 (hv ▸ List.mem_cons_self v0 vrest)
        rw [h] at hle
        have hv0 : v0 = 1 := le_antisymm (hb v0 (hv ▸ List.mem_cons_self v0 vrest)) hle
        rw [hdeg, h, ← hv0]
        exact hv ▸ List.mem_cons_self v0 vrest
      · rw [hdeg]
        exact h
    · intro u hu
      rw [hdeg]
      exact foldl_min_le_mem _ 1 u hu
  · intro e2 hfail
    have hcne2 : e2.fuzzy_conditions ≠ [] := by
      intro h
      obtain ⟨c, hc, _⟩ := hfail
      rw [h] at hc
      simp [parsedConds] at hc
    rw [matchDegree, if_neg hcne2]
    exact evalConds_fail p _ 1 hfail
  · exact List.sorted_insertionSort matchLE (matchedList p catalog)
  · exact List.perm_insertionSort matchLE (matchedList p catalog)
  · have hkey : parseKey "motivational_potential.низкий" = ["motivational_potential", "низкий"] := by
      decide
    norm_num +decide [matchDiagnoses, matchedList, List.filterMap_cons, hkey,
      evalConds_cons_parsed _ _ _ _ _ _ _ hkey, evalConds, condValue, lookupD_cons, lookupD_nil,
      List.insertionSort, List.orderedInsert, matchLE, min_def,
      tieProfile, diagPrio5, diagPrio2]

/-- Witness for C1_match_semantics at the tie-break scenario: the degree of
the priority-2 entry is its single condition value 0.8, the output is sorted
and the priority-2 entry sorts first. -/
theorem C1_witness :
    (matchDegree tieProfile diagPrio2 ∈ condVals tieProfile diagPrio2.fuzzy_conditions ∧
      ∀ u ∈ condVals tieProfile diagPrio2.fuzzy_conditions, matchDegree tieProfile diagPrio2 ≤ u) ∧
    (matchDiagnoses tieProfile [diagPrio5, diagPrio2]).Sorted matchLE ∧
    matchDiagnoses tieProfile [diagPrio5, diagPrio2] = [(diagPrio2, 0.8), (diagPrio5, 0.8)] := by
  have hkey : parseKey "motivational_potential.низкий" = ["motivational_potential", "низкий"] := by
    decide
  have h := C1_match_semantics tieProfile diagPrio2 [diagPrio5, diagPrio2]
    (by norm_num +decide [condVals, parsedConds, List.filterMap_cons, hkey, diagPrio2])
    (by norm_num +decide [parsedConds, List.filterMap_cons, hkey, condValue,
      lookupD_cons, lookupD_nil, tieProfile, diagPrio2])
    (by norm_num +decide [condVals, parsedConds, List.filterMap_cons, hkey, condValue,
      lookupD_cons, lookupD_nil, tieProfile, diagPrio2])
  exact ⟨h.1, h.2.2.1, h.2.2.2.2⟩

/-- Claim C5, counterexample: the profile contains only `diagnostic_depth`;
an entry conditioned on the absent variable `anxiety` *and* on a satisfied
`diagnostic_depth` condition is eliminated (degree 0, no match), whereas the
same entry without the absent-variable condition matches with degree 0.9 —
so an absent variable is not skipped silently. -/
theorem C5_counterexample :
    matchDegree depthProfile diagAbsentVar = 0 ∧
    matchDegree depthProfile diagPresentOnly = 0.9 ∧
    matchDegree depthProfile diagAbsentVar ≠ matchDegree depthProfile diagPresentOnly ∧
    matchDiagnoses depthProfile [diagAbsentVar] = [] := by
  have hk1 : parseKey "anxiety.высокая" = ["anxiety", "высокая"] := by decide
  have hk2 : parseKey "diagnostic_depth.высокая" = ["diagnostic_depth", "высокая"] := by decide
  refine ⟨?_, ?_, ?_, ?_⟩ <;>
    norm_num +decide [matchDegree, matchDiagnoses, matchedList, List.filterMap_cons,
      hk1, hk2, evalConds, condValue, lookupD_cons, lookupD_nil, min_def,
      List.insertionSort, depthProfile, diagAbsentVar, diagPresentOnly]

/-- Claim C5 (amended): a condition whose key does not split into exactly
two parts is skipped silently (it neither eliminates the entry nor changes
its degree, and evaluation continues); but a condition whose variable is
absent from the profile evaluates to value 0, which (for a profile with
non-negative values) eliminates the entry: its degree becomes 0 and it never
appears in the match list.  The match itself never fails. -/
theorem C5_amended (p : Profile) (e : DiagEntry) (catalog : List DiagEntry)
    (badkey goodkey : String) (th th2 : ℚ) (v t : String) :
    ((parseKey badkey).length ≠ 2 →
      ∀ conds m, evalConds p ((badkey, th) :: conds) m = evalConds p conds m) ∧
    (p.find? (fun q => q.1 = v) = none → parseKey goodkey = [v, t] →
      (goodkey, th2) ∈ e.fuzzy_conditions →
      (∀ c ∈ parsedConds e.fuzzy_conditions, 0 ≤ condValue p c.1 c.2.1) →
      matchDegree p e = 0 ∧ e ∉ (matchDiagnoses p catalog).map Prod.fst) := by
  constructor
  · intro hbad conds m
    exact evalConds_cons_skip p badkey th conds m hbad
  · intro habs hgood hmem hnn
    have hcne : e.fuzzy_conditions ≠ [] := by
      intro h
      rw [h] at hmem
      exact List.not_mem_nil _ hmem
    have hpmem : (v, t, th2) ∈ parsedConds e.fuzzy_conditions := by
      rw [parsedConds, List.mem_filterMap]
      exact ⟨(goodkey, th2), hmem, by simp [hgood]⟩
    have hzero : condValue p v t = 0 := condValue_absent p v t habs
    have hdeg : matchDegree p e = 0 := by
      rw [matchDegree, if_neg hcne]
      exact evalConds_zero_val p _ 1 (by norm_num) hnn ⟨(v, t, th2), hpmem, hzero⟩
    refine ⟨hdeg, ?_⟩
    intro hin
    have := (mem_fst_matchDiagnoses p catalog e).mp hin
    rw [hdeg] at this
    exact lt_irrefl 0 this.2

/-- Witness for C5_amended: a malformed key is skipped in front of a real
condition list, and the concrete absent-variable entry is eliminated. -/
theorem C5_witness :
    (∀ m : ℚ, evalConds depthProfile
        [("malformed", 9), ("diagnostic_depth.высокая", 0.5)] m =
      evalConds depthProfile [("diagnostic_depth.высокая", 0.5)] m) ∧
    matchDegree depthProfile diagAbsentVar = 0 ∧
    diagAbsentVar ∉ (matchDiagnoses depthProfile [diagAbsentVar]).map Prod.fst := by
  have hk1 : parseKey "anxiety.высокая" = ["anxiety", "высокая"] := by decide
  have hk2 : parseKey "diagnostic_depth.высокая" = ["diagnostic_depth", "высокая"] := by decide
  have h := C5_amended depthProfile diagAbsentVar [diagAbsentVar]
    "malformed" "anxiety.высокая" 9 0.5 "anxiety" "высокая"
  have h2 := h.2 (by decide) hk1 (by simp [diagAbsentVar])
    (by norm_num +decide [parsedConds, List.filterMap_cons, hk1, hk2,
      List.forall_mem_cons, condValue, lookupD_cons, lookupD_nil,
      depthProfile, diagAbsentVar])
  exact ⟨fun m => h.1 (by decide) _ m, h2.1, h2.2⟩

/-- Claim C9: raising one profile value `profile[v][t]` to `w` leaves the
degree and match-list membership of every entry none of whose conditions
references `v.t` unchanged, and makes an unmatched entry `e` matched when
the raise brings its `v.t` conditions over their thresholds while all its
other conditions were already satisfied with positive values. -/
theorem C9_monotone (p : Profile) (v t : String) (w : ℚ) (e d : DiagEntry)
    (catalog : List DiagEntry)
    (hd : ∃ entries, lookupD p v (ProfileVal.dict []) = ProfileVal.dict entries)
    (hraise : condValue p v t ≤ w) :
    ((∀ c ∈ parsedConds d.fuzzy_conditions, ¬(c.1 = v ∧ c.2.1 = t)) →
      matchDegree (profileSet p v t w) d = matchDegree p d ∧
      (d ∈ (matchDiagnoses (profileSet p v t w) catalog).map Prod.fst ↔
        d ∈ (matchDiagnoses p catalog).map Prod.fst)) ∧
    (e.fuzzy_conditions ≠ [] → e ∈ catalog → 0 < w →
      (∀ c ∈ parsedConds e.fuzzy_conditions, ¬(c.1 = v ∧ c.2.1 = t) →
        c.2.2 ≤ condValue p c.1 c.2.1 ∧ 0 < condValue p c.1 c.2.1) →
      (∀ c ∈ parsedConds e.fuzzy_conditions, c.1 = v → c.2.1 = t → c.2.2 ≤ w) →
      e ∈ (matchDiagnoses (profileSet p v t w) catalog).map Prod.fst) := by
  constructor
  · intro hunrel
    have hdeg : matchDegree (profileSet p v t w) d = matchDegree p d := by
      rw [matchDegree, matchDegree]
      by_cases hc : d.fuzzy_conditions = []
      · rw [if_pos hc, if_pos hc]
      · rw [if_neg hc, if_neg hc]
        apply evalConds_congr
        intro c hc2
        rw [condValue_profileSet p v t w hd c.1 c.2.1, if_neg (hunrel c hc2)]
    refine ⟨hdeg, ?_⟩
    rw [mem_fst_matchDiagnoses, mem_fst_matchDiagnoses, hdeg]
  · intro hcne hecat hw hunrel hrel
    rw [mem_fst_matchDiagnoses]
    refine ⟨hecat, ?_⟩
    rw [matchDegree, if_neg hcne]
    apply evalConds_pos _ _ 1 (by norm_num)
    intro c hc
    rw [condValue_profileSet p v t w hd c.1 c.2.1]
    by_cases hrelated : c.1 = v ∧ c.2.1 = t
    · rw [if_pos hrelated]
      exact ⟨hrel c hc hrelated.1 hrelated.2, hw⟩
    · rw [if_neg hrelated]
      exact hunrel c hc hrelated

/-- Witness for C9_monotone: the profile knows only diagnostic_depth = 0.8;
raising the absent anxiety.высокая to 0.7 keeps the unrelated entry matched
with the same degree and adds the previously unmatched two-condition
entry. -/
theorem C9_witness :
    matchDegree (profileSet profC9 "anxiety" "высокая" 0.7) diagUnrelated =
      matchDegree profC9 diagUnrelated ∧
    diagRaised ∈
      (matchDiagnoses (profileSet profC9 "anxiety" "высокая" 0.7)
        [diagUnrelated, diagRaised]).map Prod.fst := by
  have hk1 : parseKey "diagnostic_depth.высокая" = ["diagnostic_depth", "высокая"] := by decide
  have hk2 : parseKey "anxiety.высокая" = ["anxiety", "высокая"] := by decide
  have hd : ∃ entries, lookupD profC9 "anxiety" (ProfileVal.dict []) = ProfileVal.dict entries :=
    ⟨[], by norm_num +decide [lookupD_cons, lookupD_nil, profC9]⟩
  have habs : condValue profC9 "anxiety" "высокая" ≤ 0.7 := by
    norm_num +decide [condValue, lookupD_cons, lookupD_nil, profC9]
  have h := C9_monotone profC9 "anxiety" "высокая" 0.7 diagRaised diagUnrelated
    [diagUnrelated, diagRaised] hd habs
  refine ⟨(h.1 ?_).1, h.2 (by decide) (by simp) (by norm_num) ?_ ?_⟩
  · norm_num +decide [parsedConds, List.filterMap_cons, hk1, List.forall_mem_cons,
      diagUnrelated]
  · norm_num +decide [parsedConds, List.filterMap_cons, hk1, hk2, List.forall_mem_cons,
      condValue, lookupD_cons, lookupD_nil, profC9, diagRaised]
  · norm_num +decide [parsedConds, List.filterMap_cons, hk1, hk2, List.forall_mem_cons,
      diagRaised]

end HappyKids
